import Mathlib

/-!
Verification of `branch_predictor.py`.

The source is a branch-prediction simulator: a global history shift register
(`BranchPredictor.global_history`, a numpy array of length `n`), a table of
per-tag perceptrons, per-tag statistics, and three predictor variants
(`BpPerceptron`, `BpLambdaPerceptron`, `TruePerceptron`).

Conventions of the embedding:
  * numpy float values are modelled as rationals (`ℚ`), so all arithmetic is
    exact; booleans fed to numeric positions become `0`/`1` rationals;
  * Python dicts keyed by tag are modelled as total functions `String → _`
    (`collections.defaultdict` semantics: absent keys read as the default);
    the key set of the `perceptrons` defaultdict, which `get_accuracies`
    iterates over, is tracked explicitly in insertion order (`keys`);
  * the torch net inside `BpPerceptron`/`BpLambdaPerceptron` is randomly
    initialised and trained by float SGD, so it is abstracted as an opaque
    state type `Net` together with the functions the surrounding code calls
    on it; everything the claims under verification speak about (buffer,
    trigger arithmetic, control flow) is embedded concretely;
  * Python exceptions (`ZeroDivisionError`, numpy's `ValueError` on
    `np.random.choice` with too small a population) are modelled by `Option`.
-/

/-- One bit of branch history as stored in the numpy register: `1.0` for a
taken branch, `0.0` otherwise. -/
def bitQ (b : Bool) : ℚ := if b then 1 else 0

/-- Embedding of `BranchPredictor.update_history`: `np.roll(h, 1)` moves the last element
to the front and shifts the rest right; the front slot is then overwritten
with the new outcome.  Net effect on a nonempty register: cons the new bit and
drop the last element.  (On an empty register the Python code raises
`IndexError`; theorems therefore assume a positive history length.) -/
def update_history (condition : Bool) (h : List ℚ) : List ℚ :=
  bitQ condition :: h.dropLast

/-- The global history register after pushing outcomes `os` (oldest first)
into the initial all-zeros register `np.zeros((n,))`. -/
def histRun (n : ℕ) (os : List Bool) : List ℚ :=
  os.foldl (fun h o => update_history o h) (List.replicate n 0)

/-- Model of `np.sign` on exact rationals. -/
def signQ (q : ℚ) : ℚ := if 0 < q then 1 else if q < 0 then -1 else 0

/-- Model of `np.dot` of two equal-length vectors. -/
def dotQ (a b : List ℚ) : ℚ := (List.zipWith (fun u v => u * v) a b).sum

/-- The `x → 2x − 1` feature scaling used by `TruePerceptron`. -/
def scaleX (X : List ℚ) : List ℚ := X.map (fun v => 2 * v - 1)

/-- State of `TruePerceptron`: `self.weights` is `np.zeros((n+1,))`; the slice
`weights[:n]` is the field `weights` here and `weights[n]` is `bias`. -/
structure TruePerceptron where
  n : ℕ
  eta : ℚ
  weights : List ℚ
  bias : ℚ
  deriving DecidableEq

/-- Embedding of `TruePerceptron.__init__(n, eta)`: all `n + 1` weight entries start at
zero. -/
def TruePerceptron.init (n : ℕ) (eta : ℚ) : TruePerceptron :=
  { n := n, eta := eta, weights := List.replicate n 0, bias := 0 }

/-- Embedding of `TruePerceptron.predict`: `np.dot(weights[:n], X) + weights[n]`. -/
def TruePerceptron.predict (tp : TruePerceptron) (X : List ℚ) : ℚ :=
  dotQ tp.weights X + tp.bias

/-- Embedding of `TruePerceptron.predict_and_update`: scale features and label to `±1`,
take the sign of the raw score, apply the classical perceptron update when
the sign disagrees with the scaled label, and return `(np.sign(pred)+1)/2`
(the source applies `np.sign` a second time to the already-signed value). -/
def TruePerceptron.predict_and_update (tp : TruePerceptron) (X : List ℚ) (y : ℚ) :
    TruePerceptron × ℚ :=
  let x_scale := scaleX X
  let y_scale := 2 * y - 1
  let pred := signQ (tp.predict x_scale)
  let tp' :=
    if pred ≠ y_scale then
      { tp with
        weights := List.zipWith (fun w x => w + tp.eta * y_scale * x) tp.weights x_scale,
        bias := tp.bias + tp.eta * y_scale }
    else tp
  (tp', (signQ pred + 1) / 2)

/-- State of `BpLambdaPerceptron` over an abstract torch net `Net`:
`example_history_x`/`example_history_y` are the replay buffer, `lamb` is λ,
`bs` the mini-batch size (16 in `__init__`). -/
structure LambdaState (Net : Type) where
  net : Net
  example_history_x : List (List ℚ)
  example_history_y : List ℚ
  lamb : ℚ
  bs : ℕ
  deriving DecidableEq

/-- Embedding of `BpLambdaPerceptron.learning_round`: the call
`np.random.choice(range(len(buffer)),
size=bs, replace=False)` raises `ValueError` when the buffer holds fewer than
`bs` examples (modelled as `none`); otherwise one mini-batch SGD step runs on
the net.  The random subset draw and the torch gradient step are abstracted
into `round`, which receives the full buffer. -/
def BpLambdaPerceptron.learning_round {Net : Type}
    (round : Net → List (List ℚ) → List ℚ → Net)
    (st : LambdaState Net) : Option Net :=
  if st.example_history_x.length < st.bs then none
  else some (round st.net st.example_history_x st.example_history_y)

/-- The λ-margin term of `BpLambdaPerceptron.predict_and_update`: when the
incoming feature vector occurs in the replay buffer (first occurrence, as
Python `list.index`), `lamb * np.sum(X**2) * (2*stored_y - 1)`, else `0`. -/
def BpLambdaPerceptron.lambda_term {Net : Type} (st : LambdaState Net)
    (X : List ℚ) : ℚ :=
  if X ∈ st.example_history_x then
    st.lamb * (X.map (fun v => v * v)).sum *
      (2 * st.example_history_y.getD (st.example_history_x.findIdx (fun z => z == X)) 0 - 1)
  else 0

/-- Embedding of `BpLambdaPerceptron.predict_and_update`, faithful to the source order:
compute the margin term and the raw score `pred`, run a `learning_round` when
`(len(buffer)+1) % (bs+1) == 0` (the trigger fires BEFORE this call's example
can be appended), then the per-example gradient step (`exStep`, abstracting
`loss.backward(); optimizer.step()` on `|pred − y|`; it receives the score
computed from the pre-round net), then append `(X, y)` to the buffer iff the
decision `(pred + lambda_term) > 0.5` disagrees with `y`, and return that
decision.  The result also reports whether the mini-batch round fired. -/
def BpLambdaPerceptron.predict_and_update {Net : Type}
    (score : Net → List ℚ → ℚ)
    (exStep : Net → List ℚ → ℚ → ℚ → Net)
    (round : Net → List (List ℚ) → List ℚ → Net)
    (st : LambdaState Net) (X : List ℚ) (y : ℚ) :
    Option (LambdaState Net × Bool × Bool) :=
  let lt := BpLambdaPerceptron.lambda_term st X
  let pred := score st.net X
  let fired := (st.example_history_x.length + 1) % (st.bs + 1) == 0
  match (if fired then BpLambdaPerceptron.learning_round round st else some st.net) with
  | none => none
  | some net1 =>
    let net2 := exStep net1 X y pred
    let decision := decide (pred + lt > 1 / 2)
    let mis := decide ((if decision then (1 : ℚ) else 0) ≠ y)
    some
      ({ st with
          net := net2,
          example_history_x :=
            if mis then st.example_history_x ++ [X] else st.example_history_x,
          example_history_y :=
            if mis then st.example_history_y ++ [y] else st.example_history_y },
        decision, fired)

/-- Runs `BpLambdaPerceptron.predict_and_update` over a list of `(X, y)`
inputs, collecting for each call the returned decision and whether a
mini-batch round fired.  The first raised exception aborts the run. -/
def BpLambdaPerceptron.run {Net : Type}
    (score : Net → List ℚ → ℚ)
    (exStep : Net → List ℚ → ℚ → ℚ → Net)
    (round : Net → List (List ℚ) → List ℚ → Net) :
    LambdaState Net → List (List ℚ × ℚ) → Option (LambdaState Net × List (Bool × Bool))
  | st, [] => some (st, [])
  | st, (X, y) :: rest =>
    match BpLambdaPerceptron.predict_and_update score exStep round st X y with
    | none => none
    | some (st1, d, f) =>
      match BpLambdaPerceptron.run score exStep round st1 rest with
      | none => none
      | some (stF, outs) => some (stF, (d, f) :: outs)

/-- State of `BranchPredictor` over an abstract per-tag predictor type `P`
(the class is constructed with `preceptron=BpPerceptron` by default but any
of the three predictor classes is passed in; the claims about the
orchestrator hold for every predictor implementation).  The defaultdicts
`total`, `correct`, `moving_accuracy`, `taken_history`, `prediction_history`
become total functions with their default values; `perceptrons` maps a tag to
`none` until the defaultdict factory has run for it, and `keys` is the
insertion-ordered key list of the `perceptrons` dict. -/
structure BranchPredictor (P : Type) where
  global_history : List ℚ
  total : String → ℕ
  correct : String → ℕ
  moving_accuracy : String → ℚ
  taken_history : String → List ℕ
  prediction_history : String → List ℕ
  perceptrons : String → Option P
  keys : List String

/-- Embedding of `BranchPredictor.__init__(n, ...)`: zero history register, empty
statistics, no perceptrons created yet. -/
def BranchPredictor.init (P : Type) (n : ℕ) : BranchPredictor P :=
  { global_history := List.replicate n 0
    total := fun _ => 0
    correct := fun _ => 0
    moving_accuracy := fun _ => 0
    taken_history := fun _ => []
    prediction_history := fun _ => []
    perceptrons := fun _ => none
    keys := [] }

/-- The tagged branch of `BranchPredictor.__call__`, in source order:
`total[tag] += 1`; `p = perceptrons[tag].predict_and_update(global_history,
int(condition))` (the defaultdict lookup creates a fresh predictor `mk` on
first use); `moving_accuracy[tag] *= 0.9`; append to the two logs (the
prediction log stores `1 if p else 0`, Python truthiness of the returned
value); if `condition == p` (numeric equality of `p` with `1`/`0`), increment
`correct[tag]` and add `0.1` to `moving_accuracy[tag]`.  `predUpd` abstracts
`predict_and_update` of whichever predictor class was configured: it takes
the predictor state, the feature vector and the `int(condition)` label and
returns the updated predictor and the returned prediction value. -/
def BranchPredictor.observeTagged {P : Type} (mk : P)
    (predUpd : P → List ℚ → ℚ → P × ℚ)
    (st : BranchPredictor P) (condition : Bool) (s : String) :
    BranchPredictor P :=
  let y : ℚ := bitQ condition
  let created := st.perceptrons s
  let keys1 := if created.isSome then st.keys else st.keys ++ [s]
  let pu := predUpd (created.getD mk) st.global_history y
  let p := pu.2
  let hit : Bool := decide (y = p)
  { st with
    total := fun k => if k = s then st.total s + 1 else st.total k
    perceptrons := fun k => if k = s then some pu.1 else st.perceptrons k
    keys := keys1
    moving_accuracy := fun k =>
      if k = s then st.moving_accuracy s * (9 / 10) + (if hit then 1 / 10 else 0)
      else st.moving_accuracy k
    taken_history := fun k =>
      if k = s then st.taken_history s ++ [if condition then 1 else 0]
      else st.taken_history k
    prediction_history := fun k =>
      if k = s then st.prediction_history s ++ [if p ≠ 0 then 1 else 0]
      else st.prediction_history k
    correct := fun k =>
      if k = s then (if hit then st.correct s + 1 else st.correct s)
      else st.correct k }

/-- Embedding of `BranchPredictor.__call__(condition, tag=None)`: Python's `if tag:` takes
the tagged branch only when `tag` is a truthy value — `None` and the empty
string both skip it.  Afterwards the outcome is unconditionally pushed into
the global history register and the original `condition` is returned. -/
def BranchPredictor.call {P : Type} (mk : P)
    (predUpd : P → List ℚ → ℚ → P × ℚ)
    (st : BranchPredictor P) (condition : Bool) (tag : Option String) :
    BranchPredictor P × Bool :=
  let st1 :=
    match tag with
    | none => st
    | some s =>
      if s = "" then st else BranchPredictor.observeTagged mk predUpd st condition s
  ({ st1 with global_history := update_history condition st1.global_history }, condition)

/-- A whole session: fold `BranchPredictor.__call__` over a list of
`(condition, tag)` events. -/
def BranchPredictor.runEvents {P : Type} (mk : P)
    (predUpd : P → List ℚ → ℚ → P × ℚ) :
    BranchPredictor P → List (Bool × Option String) → BranchPredictor P
  | st, [] => st
  | st, (c, t) :: rest =>
    BranchPredictor.runEvents mk predUpd (BranchPredictor.call mk predUpd st c t).1 rest

/-- The loop body of `BranchPredictor.get_accuracies`: walk the keys of the
`perceptrons` dict in order and compute `correct[key] / total[key]`; a key
with `total[key] == 0` raises `ZeroDivisionError` (modelled as `none`). -/
def accLoop (correct total : String → ℕ) : List String → Option (List (String × ℚ))
  | [] => some []
  | k :: ks =>
    if total k = 0 then none
    else (accLoop correct total ks).map (fun acc => (k, (correct k : ℚ) / (total k : ℚ)) :: acc)

/-- Embedding of `BranchPredictor.get_accuracies` (and the identical division in
`print_accuracies`): the per-tag exact ratio `correct[key] / total[key]` for
every key of the `perceptrons` dict. -/
def BranchPredictor.get_accuracies {P : Type} (st : BranchPredictor P) :
    Option (List (String × ℚ)) :=
  accLoop st.correct st.total st.keys

/-! ### History register lemmas -/

theorem take_dropLast_of_le {α : Type _} (l : List α) (k : ℕ) (hk : k ≤ l.length - 1) :
    l.dropLast.take k = l.take k := by
  rw [List.dropLast_eq_take, List.take_take, Nat.min_eq_left hk]

theorem take_cons_dropLast {α : Type _} (c : α) (h : List α) (m : ℕ) (hm : m ≤ h.length) :
    (c :: h.dropLast).take m = (c :: h).take m := by
  cases m with
  | zero => simp
  | succ m' =>
    simp only [List.take_succ_cons]
    rw [take_dropLast_of_le h m' (by omega)]

theorem histAux (os : List Bool) :
    ∀ h : List ℚ, 0 < h.length →
      List.foldl (fun acc o => update_history o acc) h os =
        ((os.reverse.map bitQ) ++ h).take h.length := by
  induction os with
  | nil =>
    intro h _
    simp
  | cons o os ih =>
    intro h hp
    have hlen : (update_history o h).length = h.length := by
      simp only [update_history, List.length_cons, List.length_dropLast]
      omega
    have step : List.foldl (fun acc o => update_history o acc) h (o :: os) =
        List.foldl (fun acc o => update_history o acc) (update_history o h) os := rfl
    rw [step, ih (update_history o h) (by rw [hlen]; exact hp), hlen]
    simp only [List.reverse_cons, List.map_append, List.map_cons, List.map_nil,
      List.append_assoc, List.singleton_append]
    show ((os.reverse.map bitQ) ++ (bitQ o :: h.dropLast)).take h.length =
      ((os.reverse.map bitQ) ++ (bitQ o :: h)).take h.length
    rw [List.take_append_eq_append_take, List.take_append_eq_append_take]
    congr 1
    exact take_cons_dropLast (bitQ o) h _ (by omega)

/-- C2: the global history register always has length exactly `n`, and after
pushing outcomes `o_1, …, o_k` with `k ≥ n` it reads
`[o_k, o_{k-1}, …, o_{k-n+1}]` — newest at index 0, oldest discarded. -/
theorem claim_C2_history_invariant (n : ℕ) (os : List Bool) (hn : 0 < n) :
    (histRun n os).length = n ∧
      (n ≤ os.length → histRun n os = (os.reverse.take n).map bitQ) := by
  have h0 : (List.replicate n (0 : ℚ)).length = n := List.length_replicate n 0
  have h := histAux os (List.replicate n 0) (by rw [h0]; exact hn)
  rw [histRun, h, h0]
  constructor
  · rw [List.length_take]
    simp only [List.length_append, List.length_map, List.length_reverse,
      List.length_replicate]
    omega
  · intro hk
    rw [List.take_append_of_le_length (by simp; omega), List.map_take]

/-- Witness for C2 at `n = 2` over the outcome sequence
`[true, false, true]`. -/
theorem claim_C2_history_invariant_witness :
    (histRun 2 [true, false, true]).length = 2 ∧
      histRun 2 [true, false, true] = [1, 0] := by
  have h := claim_C2_history_invariant 2 [true, false, true] (by decide)
  exact ⟨h.1, (h.2 (by decide)).trans (by decide)⟩

/-! ### Orchestrator lemmas -/

/-- A trivial predictor instantiation (opaque state `Unit`, constant
prediction `1`) used to exercise the orchestrator theorems on concrete
inputs. -/
def unitPredUpd : Unit → List ℚ → ℚ → Unit × ℚ := fun p _ _ => (p, 1)

/-- A concrete freshly-initialised orchestrator state with history length 2. -/
def bpState0 : BranchPredictor Unit := BranchPredictor.init Unit 2

/-- C1: `BranchPredictor.__call__(condition, tag)` returns `condition`
unchanged for every condition and every tag value (the history length must be
positive for the call to complete at all, since `update_history` indexes into
the register). -/
theorem claim_C1_pass_through {P : Type} (mk : P)
    (predUpd : P → List ℚ → ℚ → P × ℚ) (st : BranchPredictor P)
    (condition : Bool) (tag : Option String)
    (hn : 0 < st.global_history.length) :
    (BranchPredictor.call mk predUpd st condition tag).2 = condition := rfl

/-- Witness for C1 on a concrete tagged call. -/
theorem claim_C1_pass_through_witness :
    (BranchPredictor.call () unitPredUpd bpState0 true (some "a")).2 = true :=
  claim_C1_pass_through () unitPredUpd bpState0 true (some "a") (by decide)

/-- C4: in a tagged call the feature vector handed to `predict_and_update` is
the history register state from BEFORE the current outcome is pushed — the
new predictor state is `predUpd` applied to the old `global_history`, while
the register itself is only updated afterwards. -/
theorem claim_C4_predict_before_push {P : Type} (mk : P)
    (predUpd : P → List ℚ → ℚ → P × ℚ) (st : BranchPredictor P)
    (condition : Bool) (s : String) (hs : s ≠ "") :
    ((BranchPredictor.call mk predUpd st condition (some s)).1.perceptrons s =
      some (predUpd ((st.perceptrons s).getD mk) st.global_history (bitQ condition)).1) ∧
    ((BranchPredictor.call mk predUpd st condition (some s)).1.global_history =
      update_history condition st.global_history) := by
  simp [BranchPredictor.call, BranchPredictor.observeTagged, hs]

/-- Witness for C4 on a concrete tagged call. -/
theorem claim_C4_predict_before_push_witness :
    ((BranchPredictor.call () unitPredUpd bpState0 true (some "a")).1.perceptrons "a" =
      some (unitPredUpd ((bpState0.perceptrons "a").getD ()) bpState0.global_history (bitQ true)).1) ∧
    ((BranchPredictor.call () unitPredUpd bpState0 true (some "a")).1.global_history =
      update_history true bpState0.global_history) :=
  claim_C4_predict_before_push () unitPredUpd bpState0 true "a" (by decide)

theorem correct_le_total_step {P : Type} (mk : P)
    (predUpd : P → List ℚ → ℚ → P × ℚ) (st : BranchPredictor P)
    (c : Bool) (t : Option String)
    (h : ∀ k, st.correct k ≤ st.total k) :
    ∀ k, (BranchPredictor.call mk predUpd st c t).1.correct k ≤
      (BranchPredictor.call mk predUpd st c t).1.total k := by
  intro k
  cases t with
  | none => simpa [BranchPredictor.call] using h k
  | some s =>
    by_cases hs : s = ""
    · subst hs
      simpa [BranchPredictor.call] using h k
    · simp only [BranchPredictor.call, BranchPredictor.observeTagged, if_neg hs]
      by_cases hk : k = s
      · subst hk
        simp only [if_pos rfl]
        have := h k
        split_ifs <;> omega
      · simpa [hk] using h k

theorem correct_le_total_run {P : Type} (mk : P)
    (predUpd : P → List ℚ → ℚ → P × ℚ) (events : List (Bool × Option String)) :
    ∀ st : BranchPredictor P, (∀ k, st.correct k ≤ st.total k) →
      ∀ k, (BranchPredictor.runEvents mk predUpd st events).correct k ≤
        (BranchPredictor.runEvents mk predUpd st events).total k := by
  induction events with
  | nil => intro st h k; exact h k
  | cons e rest ih =>
    intro st h k
    exact ih (BranchPredictor.call mk predUpd st e.1 e.2).1
      (correct_le_total_step mk predUpd st e.1 e.2 h) k

/-- C5: a tagged call (Python-truthy tag) increments `total[tag]` by exactly
one and leaves all other totals unchanged; untagged calls (and calls whose
tag is falsy) leave `total` unchanged; and after any sequence of calls from a
fresh state, `correct[k] ≤ total[k]` for every tag. -/
theorem claim_C5_monotonic_counters {P : Type} (mk : P)
    (predUpd : P → List ℚ → ℚ → P × ℚ) :
    (∀ (st : BranchPredictor P) (c : Bool) (s : String), s ≠ "" →
      ((BranchPredictor.call mk predUpd st c (some s)).1.total s = st.total s + 1 ∧
        ∀ k, k ≠ s → (BranchPredictor.call mk predUpd st c (some s)).1.total k = st.total k)) ∧
    (∀ (st : BranchPredictor P) (c : Bool),
      (BranchPredictor.call mk predUpd st c none).1.total = st.total ∧
        (BranchPredictor.call mk predUpd st c (some "")).1.total = st.total) ∧
    (∀ (n : ℕ) (events : List (Bool × Option String)) (k : String),
      (BranchPredictor.runEvents mk predUpd (BranchPredictor.init P n) events).correct k ≤
        (BranchPredictor.runEvents mk predUpd (BranchPredictor.init P n) events).total k) := by
  refine ⟨?_, ⟨?_, ?_⟩⟩
  · intro st c s hs
    constructor
    · simp [BranchPredictor.call, BranchPredictor.observeTagged, hs]
    · intro k hk
      simp [BranchPredictor.call, BranchPredictor.observeTagged, hs, hk]
  · intro st c
    exact ⟨rfl, rfl⟩
  · intro n events k
    exact correct_le_total_run mk predUpd events (BranchPredictor.init P n)
      (fun _ => le_refl 0) k

/-- Witness for C5 on concrete calls. -/
theorem claim_C5_monotonic_counters_witness :
    ((BranchPredictor.call () unitPredUpd bpState0 true (some "a")).1.total "a" =
      bpState0.total "a" + 1) ∧
    ((BranchPredictor.call () unitPredUpd bpState0 true none).1.total = bpState0.total) ∧
    ((BranchPredictor.runEvents () unitPredUpd (BranchPredictor.init Unit 2)
        [(true, some "a")]).correct "a" ≤
      (BranchPredictor.runEvents () unitPredUpd (BranchPredictor.init Unit 2)
        [(true, some "a")]).total "a") :=
  ⟨((claim_C5_monotonic_counters () unitPredUpd).1 bpState0 true "a" (by decide)).1,
    ((claim_C5_monotonic_counters () unitPredUpd).2.1 bpState0 true).1,
    (claim_C5_monotonic_counters () unitPredUpd).2.2 2 [(true, some "a")] "a"⟩

theorem moving_accuracy_step {P : Type} (mk : P)
    (predUpd : P → List ℚ → ℚ → P × ℚ) (st : BranchPredictor P)
    (c : Bool) (t : Option String)
    (h : ∀ k, 0 ≤ st.moving_accuracy k ∧ st.moving_accuracy k ≤ 1) :
    ∀ k, 0 ≤ (BranchPredictor.call mk predUpd st c t).1.moving_accuracy k ∧
      (BranchPredictor.call mk predUpd st c t).1.moving_accuracy k ≤ 1 := by
  intro k
  cases t with
  | none => simpa [BranchPredictor.call] using h k
  | some s =>
    by_cases hs : s = ""
    · subst hs
      simpa [BranchPredictor.call] using h k
    · simp only [BranchPredictor.call, BranchPredictor.observeTagged, if_neg hs]
      by_cases hk : k = s
      · subst hk
        simp only [if_pos rfl]
        obtain ⟨h0, h1⟩ := h k
        have h9 : st.moving_accuracy k * (9 / 10) ≤ 9 / 10 := by nlinarith
        have h9' : 0 ≤ st.moving_accuracy k * (9 / 10) := by positivity
        split_ifs <;> constructor <;> nlinarith
      · simpa [hk] using h k

/-- C10: starting from a fresh state, `moving_accuracy[tag]` stays within
`[0, 1]` for every tag after every sequence of observe calls: the decay by
`0.9` followed by at most `+0.1` cannot leave the unit interval. -/
theorem claim_C10_moving_accuracy_bounds {P : Type} (mk : P)
    (predUpd : P → List ℚ → ℚ → P × ℚ) (n : ℕ)
    (events : List (Bool × Option String)) (k : String) :
    0 ≤ (BranchPredictor.runEvents mk predUpd (BranchPredictor.init P n)
        events).moving_accuracy k ∧
      (BranchPredictor.runEvents mk predUpd (BranchPredictor.init P n)
        events).moving_accuracy k ≤ 1 := by
  suffices h : ∀ (st : BranchPredictor P),
      (∀ j, 0 ≤ st.moving_accuracy j ∧ st.moving_accuracy j ≤ 1) →
      ∀ j, 0 ≤ (BranchPredictor.runEvents mk predUpd st events).moving_accuracy j ∧
        (BranchPredictor.runEvents mk predUpd st events).moving_accuracy j ≤ 1 by
    exact h (BranchPredictor.init P n)
      (fun _ => ⟨le_refl 0, by norm_num [BranchPredictor.init]⟩) k
  clear k
  induction events with
  | nil => intro st h j; exact h j
  | cons e rest ih =>
    intro st h j
    exact ih (BranchPredictor.call mk predUpd st e.1 e.2).1
      (moving_accuracy_step mk predUpd st e.1 e.2 h) j

/-! ### Tag dispatch and accuracy query -/

/-- The claim that supplying the empty string as tag still takes the tagged
path is false: Python's `if tag:` treats `""` as falsy, so the call records
nothing for the empty tag — no predictor is created and its total stays 0. -/
theorem claim_C9_tag_dispatch_counterexample :
    (BranchPredictor.call () unitPredUpd bpState0 true (some "")).1.total "" = 0 ∧
    (BranchPredictor.call () unitPredUpd bpState0 true (some "")).1.perceptrons "" = none := by
  exact ⟨rfl, rfl⟩

/-- C9 (amended): a call whose tag is a non-empty string takes the tagged
path — it obtains (creating on first use) that tag's predictor, performs
predict-and-update with `int(condition)` as ground truth, and records the
per-tag statistics; a call with no tag, or with the falsy empty string as
tag, only pushes the outcome into the history register. -/
theorem claim_C9_tag_dispatch {P : Type} (mk : P)
    (predUpd : P → List ℚ → ℚ → P × ℚ) :
    (∀ (st : BranchPredictor P) (c : Bool) (s : String), s ≠ "" →
      ((BranchPredictor.call mk predUpd st c (some s)).1.perceptrons s =
        some (predUpd ((st.perceptrons s).getD mk) st.global_history (bitQ c)).1 ∧
      (BranchPredictor.call mk predUpd st c (some s)).1.total s = st.total s + 1 ∧
      (BranchPredictor.call mk predUpd st c (some s)).1.taken_history s =
        st.taken_history s ++ [if c then 1 else 0] ∧
      (BranchPredictor.call mk predUpd st c (some s)).1.prediction_history s =
        st.prediction_history s ++
          [if (predUpd ((st.perceptrons s).getD mk) st.global_history (bitQ c)).2 ≠ 0
            then 1 else 0] ∧
      (BranchPredictor.call mk predUpd st c (some s)).1.correct s =
        (if bitQ c = (predUpd ((st.perceptrons s).getD mk) st.global_history (bitQ c)).2
          then st.correct s + 1 else st.correct s) ∧
      (BranchPredictor.call mk predUpd st c (some s)).1.global_history =
        update_history c st.global_history)) ∧
    (∀ (st : BranchPredictor P) (c : Bool),
      (BranchPredictor.call mk predUpd st c none).1 =
        { st with global_history := update_history c st.global_history } ∧
      (BranchPredictor.call mk predUpd st c (some "")).1 =
        { st with global_history := update_history c st.global_history }) := by
  constructor
  · intro st c s hs
    refine ⟨?_, ?_, ?_, ?_, ?_, ?_⟩ <;>
      simp [BranchPredictor.call, BranchPredictor.observeTagged, hs]
  · intro st c
    exact ⟨rfl, rfl⟩

/-- Witness for the amended C9 on concrete calls. -/
theorem claim_C9_tag_dispatch_witness :
    ((BranchPredictor.call () unitPredUpd bpState0 true (some "a")).1.total "a" =
      bpState0.total "a" + 1) ∧
    ((BranchPredictor.call () unitPredUpd bpState0 true (some "")).1 =
      { bpState0 with global_history := update_history true bpState0.global_history }) :=
  ⟨((claim_C9_tag_dispatch () unitPredUpd).1 bpState0 true "a" (by decide)).2.1,
    ((claim_C9_tag_dispatch () unitPredUpd).2 bpState0 true).2⟩

theorem accLoop_spec (correct total : String → ℕ) (ks : List String) :
    (accLoop correct total ks = none ↔ ∃ k ∈ ks, total k = 0) ∧
    ((∀ k ∈ ks, total k ≠ 0) →
      accLoop correct total ks =
        some (ks.map fun k => (k, (correct k : ℚ) / (total k : ℚ)))) := by
  induction ks with
  | nil => simp [accLoop]
  | cons k ks ih =>
    constructor
    · simp only [accLoop]
      by_cases hk : total k = 0
      · simp [hk]
      · rw [if_neg hk, Option.map_eq_none', ih.1]
        constructor
        · rintro ⟨j, hj, hjz⟩
          exact ⟨j, List.mem_cons_of_mem _ hj, hjz⟩
        · rintro ⟨j, hj, hjz⟩
          rcases List.mem_cons.mp hj with h | h
          · exact absurd (h ▸ hjz) hk
          · exact ⟨j, h, hjz⟩
    · intro hall
      have hk : total k ≠ 0 := hall k (List.mem_cons_self k ks)
      simp only [accLoop, if_neg hk,
        ih.2 (fun j hj => hall j (List.mem_cons_of_mem _ hj))]
      rfl

/-- C8: the accuracy query raises `ZeroDivisionError` exactly when some tag
in the predictor table has `total == 0`, and otherwise returns the exact
per-tag ratio `correct[tag] / total[tag]`. -/
theorem claim_C8_accuracy_query {P : Type} (st : BranchPredictor P) :
    (BranchPredictor.get_accuracies st = none ↔ ∃ k ∈ st.keys, st.total k = 0) ∧
    ((∀ k ∈ st.keys, st.total k ≠ 0) →
      BranchPredictor.get_accuracies st =
        some (st.keys.map fun k => (k, (st.correct k : ℚ) / (st.total k : ℚ)))) :=
  accLoop_spec st.correct st.total st.keys

/-- A concrete table state: tag `"a"` seen twice, predicted right once. -/
def bpStateAcc : BranchPredictor Unit :=
  { global_history := [0]
    total := fun k => if k = "a" then 2 else 0
    correct := fun k => if k = "a" then 1 else 0
    moving_accuracy := fun _ => 0
    taken_history := fun _ => []
    prediction_history := fun _ => []
    perceptrons := fun k => if k = "a" then some () else none
    keys := ["a"] }

/-- Witness for C8: on `bpStateAcc` the query succeeds with ratio `1/2`. -/
theorem claim_C8_accuracy_query_witness :
    BranchPredictor.get_accuracies bpStateAcc = some [("a", (1 : ℚ) / 2)] := by
  have h := (claim_C8_accuracy_query bpStateAcc).2 (by decide)
  rw [h]
  norm_num [bpStateAcc]

/-! ### SignPerceptron (`TruePerceptron`) -/

theorem signQ_cases (q : ℚ) : signQ q = 1 ∨ signQ q = -1 ∨ signQ q = 0 := by
  unfold signQ
  split_ifs <;> simp

theorem signQ_idem (q : ℚ) : signQ (signQ q) = signQ q := by
  rcases signQ_cases q with h | h | h <;> rw [h] <;> norm_num [signQ]

/-- Supplying the claimed "0/1 decision" is refuted on the all-zero initial
weights: the raw score is exactly 0, `np.sign` yields 0, and the call returns
`0.5`, which is neither 0 nor 1. -/
theorem claim_C3_sign_perceptron_counterexample :
    (TruePerceptron.predict_and_update (TruePerceptron.init 2 1) [1, 0] 1).2 = 1 / 2 ∧
      ((1 : ℚ) / 2 ≠ 0 ∧ (1 : ℚ) / 2 ≠ 1) := by
  have hscore : TruePerceptron.predict (TruePerceptron.init 2 1) (scaleX [1, 0]) = 0 := by
    norm_num [TruePerceptron.predict, TruePerceptron.init, scaleX, dotQ,
      List.replicate_succ]
  constructor
  · simp only [TruePerceptron.predict_and_update]
    rw [hscore]
    norm_num [signQ]
  · norm_num

/-- C3 (amended): `TruePerceptron.predict_and_update` maps `x` to `2x−1`
elementwise and `y` to `2y−1`, computes `pred = sign(dot(weights, x_scaled) +
bias)`, modifies the weights by `η·y_scaled·x_scaled` and the bias by
`η·y_scaled` exactly when `pred ≠ y_scaled`, and returns `(pred+1)/2` — a 0/1
decision whenever the raw score is nonzero, but `0.5` when the raw score (and
hence its sign) is exactly zero. -/
theorem claim_C3_sign_perceptron_update (tp : TruePerceptron) (X : List ℚ) (y : ℚ)
    (hX : X.length = tp.n) (hw : tp.weights.length = tp.n) (hy : y = 0 ∨ y = 1) :
    ((TruePerceptron.predict_and_update tp X y).2 =
      (signQ (tp.predict (scaleX X)) + 1) / 2) ∧
    (signQ (tp.predict (scaleX X)) = 2 * y - 1 →
      (TruePerceptron.predict_and_update tp X y).1 = tp) ∧
    (signQ (tp.predict (scaleX X)) ≠ 2 * y - 1 →
      ((TruePerceptron.predict_and_update tp X y).1.weights =
        List.zipWith (fun w x => w + tp.eta * (2 * y - 1) * x) tp.weights (scaleX X) ∧
      (TruePerceptron.predict_and_update tp X y).1.bias =
        tp.bias + tp.eta * (2 * y - 1))) ∧
    (tp.eta ≠ 0 →
      ((TruePerceptron.predict_and_update tp X y).1 = tp ↔
        signQ (tp.predict (scaleX X)) = 2 * y - 1)) ∧
    (signQ (tp.predict (scaleX X)) = 0 →
      (TruePerceptron.predict_and_update tp X y).2 = 1 / 2) ∧
    (signQ (tp.predict (scaleX X)) ≠ 0 →
      ((TruePerceptron.predict_and_update tp X y).2 = 0 ∨
        (TruePerceptron.predict_and_update tp X y).2 = 1)) := by
  refine ⟨?_, ?_, ?_, ?_, ?_, ?_⟩
  · simp only [TruePerceptron.predict_and_update, signQ_idem]
  · intro h
    simp [TruePerceptron.predict_and_update, h]
  · intro h
    constructor <;> simp [TruePerceptron.predict_and_update, h]
  · intro heta
    constructor
    · intro heq
      by_contra hne
      have hb : (TruePerceptron.predict_and_update tp X y).1.bias =
          tp.bias + tp.eta * (2 * y - 1) := by
        simp [TruePerceptron.predict_and_update, hne]
      rw [heq] at hb
      have hzero : tp.eta * (2 * y - 1) = 0 := by linarith
      rcases mul_eq_zero.mp hzero with h0 | h0
      · exact heta h0
      · rcases hy with hy0 | hy1
        · rw [hy0] at h0; norm_num at h0
        · rw [hy1] at h0; norm_num at h0
    · intro h
      simp [TruePerceptron.predict_and_update, h]
  · intro h
    simp only [TruePerceptron.predict_and_update]
    rw [h]
    norm_num [signQ]
  · intro h
    rcases signQ_cases (tp.predict (scaleX X)) with h1 | h1 | h1
    · right
      simp only [TruePerceptron.predict_and_update]
      rw [h1]
      norm_num [signQ]
    · left
      simp only [TruePerceptron.predict_and_update]
      rw [h1]
      norm_num [signQ]
    · exact absurd h1 h

/-- A concrete nonzero-score perceptron state for the C3 witness. -/
def tpW : TruePerceptron := { n := 1, eta := 1, weights := [1], bias := 0 }

/-- Witness for the amended C3: on `tpW` with `X = [1]`, `y = 1` the raw
score is positive, no update fires, and the returned decision is the claimed
`(pred+1)/2`. -/
theorem claim_C3_sign_perceptron_update_witness :
    ((TruePerceptron.predict_and_update tpW [1] 1).2 =
      (signQ (TruePerceptron.predict tpW (scaleX [1])) + 1) / 2) ∧
    ((TruePerceptron.predict_and_update tpW [1] 1).1 = tpW ↔
      signQ (TruePerceptron.predict tpW (scaleX [1])) = 2 * 1 - 1) :=
  ⟨(claim_C3_sign_perceptron_update tpW [1] 1 rfl rfl (Or.inr rfl)).1,
    (claim_C3_sign_perceptron_update tpW [1] 1 rfl rfl (Or.inr rfl)).2.2.2.1
      (by norm_num [tpW])⟩

/-! ### MarginPerceptron (`BpLambdaPerceptron`) trigger and replay buffer -/

theorem trigger_ge (L B : ℕ) (h : (L + 1) % (B + 1) = 0) : B ≤ L := by
  have hd : (B + 1) ∣ (L + 1) := Nat.dvd_of_mod_eq_zero h
  have hle := Nat.le_of_dvd (Nat.succ_pos L) hd
  omega

theorem predict_and_update_some_facts {Net : Type}
    (score : Net → List ℚ → ℚ) (exStep : Net → List ℚ → ℚ → ℚ → Net)
    (round : Net → List (List ℚ) → List ℚ → Net)
    (st : LambdaState Net) (X : List ℚ) (y : ℚ)
    (st1 : LambdaState Net) (d f : Bool)
    (h : BpLambdaPerceptron.predict_and_update score exStep round st X y =
      some (st1, d, f)) :
    f = ((st.example_history_x.length + 1) % (st.bs + 1) == 0) ∧
    st1.bs = st.bs ∧
    st1.example_history_x =
      (if (if d then (1 : ℚ) else 0) ≠ y then st.example_history_x ++ [X]
       else st.example_history_x) := by
  simp only [BpLambdaPerceptron.predict_and_update] at h
  split at h
  · exact absurd h (by simp)
  · simp only [Option.some.injEq, Prod.mk.injEq] at h
    obtain ⟨h1, h2, h3⟩ := h
    refine ⟨h3.symm, by rw [← h1], ?_⟩
    rw [← h1, ← h2]
    simp only [decide_eq_true_eq]

theorem predict_and_update_ne_none {Net : Type}
    (score : Net → List ℚ → ℚ) (exStep : Net → List ℚ → ℚ → ℚ → Net)
    (round : Net → List (List ℚ) → List ℚ → Net)
    (st : LambdaState Net) (X : List ℚ) (y : ℚ) :
    BpLambdaPerceptron.predict_and_update score exStep round st X y ≠ none := by
  intro hnone
  simp only [BpLambdaPerceptron.predict_and_update] at hnone
  split at hnone
  case _ heq =>
    by_cases hc : ((st.example_history_x.length + 1) % (st.bs + 1) == 0) = true
    · rw [if_pos hc] at heq
      have hmod : (st.example_history_x.length + 1) % (st.bs + 1) = 0 := by
        simpa using hc
      have hge : st.bs ≤ st.example_history_x.length :=
        trigger_ge st.example_history_x.length st.bs hmod
      simp only [BpLambdaPerceptron.learning_round] at heq
      rw [if_neg (not_lt.mpr hge)] at heq
      exact absurd heq (by simp)
    · rw [if_neg hc] at heq
      exact absurd heq (by simp)
  case _ => exact absurd hnone (by simp)

theorem lambdaRun_fired_pattern {Net : Type}
    (score : Net → List ℚ → ℚ) (exStep : Net → List ℚ → ℚ → ℚ → Net)
    (round : Net → List (List ℚ) → List ℚ → Net) :
    ∀ (inputs : List (List ℚ × ℚ)) (st : LambdaState Net)
      (stF : LambdaState Net) (outs : List (Bool × Bool)),
      BpLambdaPerceptron.run score exStep round st inputs = some (stF, outs) →
      (∀ p ∈ outs.zip inputs, (if p.1.1 then (1 : ℚ) else 0) ≠ p.2.2) →
      outs.map Prod.snd = (List.range inputs.length).map
        (fun i => ((st.example_history_x.length + i + 1) % (st.bs + 1) == 0)) := by
  intro inputs
  induction inputs with
  | nil =>
    intro st stF outs hrun _
    simp only [BpLambdaPerceptron.run, Option.some.injEq, Prod.mk.injEq] at hrun
    rw [← hrun.2]
    simp
  | cons inp rest ih =>
    obtain ⟨X, y⟩ := inp
    intro st stF outs hrun hmis
    simp only [BpLambdaPerceptron.run] at hrun
    split at hrun
    · exact absurd hrun (by simp)
    · rename_i st1 d f hstep
      split at hrun
      · exact absurd hrun (by simp)
      · rename_i stF' outs' hrest
        simp only [Option.some.injEq, Prod.mk.injEq] at hrun
        obtain ⟨hF, houts⟩ := hrun
        subst houts
        obtain ⟨hf, hbs, hehx⟩ :=
          predict_and_update_some_facts score exStep round st X y st1 d f hstep
        have hmis0 : (if d then (1 : ℚ) else 0) ≠ y := by
          have hm := hmis ((d, f), (X, y)) (by simp [List.zip_cons_cons])
          simpa using hm
        have hlen1 : st1.example_history_x.length = st.example_history_x.length + 1 := by
          rw [hehx, if_pos hmis0]
          simp
        have hrec := ih st1 stF' outs' hrest
          (fun p hp => hmis p (by simp [List.zip_cons_cons, hp]))
        simp only [List.map_cons, List.length_cons]
        rw [hrec, hlen1, hbs, hf]
        rw [List.range_succ_eq_map, List.map_cons, List.map_map]
        congr 1
        refine List.map_congr_left ?_
        intro a _
        simp only [Function.comp_apply, Nat.succ_eq_add_one]
        have hx : st.example_history_x.length + 1 + a + 1 =
            st.example_history_x.length + (a + 1) + 1 := by omega
        rw [hx]

/-- C7: whenever the count trigger `(len(buffer)+1) % (bs+1) == 0` holds, the
replay buffer already holds at least `bs` examples, so the
`np.random.choice(..., size=bs, replace=False)` draw inside `learning_round`
cannot fail: `predict_and_update` never raises `InsufficientData`, for any
net, any state and any input. -/
theorem claim_C7_replay_buffer_sufficient {Net : Type}
    (score : Net → List ℚ → ℚ) (exStep : Net → List ℚ → ℚ → ℚ → Net)
    (round : Net → List (List ℚ) → List ℚ → Net) :
    (∀ st : LambdaState Net,
      (st.example_history_x.length + 1) % (st.bs + 1) = 0 →
      st.bs ≤ st.example_history_x.length) ∧
    (∀ (st : LambdaState Net) (X : List ℚ) (y : ℚ),
      BpLambdaPerceptron.predict_and_update score exStep round st X y ≠ none) :=
  ⟨fun st h => trigger_ge st.example_history_x.length st.bs h,
    fun st X y => predict_and_update_ne_none score exStep round st X y⟩

/-- Trivial concrete net functions used for witnesses: constant-zero score
and no-op training steps. -/
def score0 : Unit → List ℚ → ℚ := fun _ _ => 0

/-- No-op per-example gradient step for witnesses. -/
def exStep0 : Unit → List ℚ → ℚ → ℚ → Unit := fun _ _ _ _ => ()

/-- No-op mini-batch gradient step for witnesses. -/
def round0 : Unit → List (List ℚ) → List ℚ → Unit := fun _ _ _ => ()

/-- A `BpLambdaPerceptron` state whose replay buffer holds exactly 16
examples, so the very next update fires the trigger. -/
def lamSt16 : LambdaState Unit :=
  { net := (), example_history_x := List.replicate 16 [0],
    example_history_y := List.replicate 16 1, lamb := 0, bs := 16 }

/-- Witness for C7 at the state where the trigger fires. -/
theorem claim_C7_replay_buffer_sufficient_witness :
    lamSt16.bs ≤ lamSt16.example_history_x.length ∧
      BpLambdaPerceptron.predict_and_update score0 exStep0 round0 lamSt16 [0] 1 ≠ none :=
  ⟨(claim_C7_replay_buffer_sufficient score0 exStep0 round0).1 lamSt16 (by decide),
    (claim_C7_replay_buffer_sufficient score0 exStep0 round0).2 lamSt16 [0] 1⟩

/-- C6: a mini-batch gradient round fires during an update exactly when the
buffer size counting this update as the (k+1)-th reaches a multiple of
`bs + 1`; consequently, over 17 consecutive updates that are all mispredicted
(each appending to the buffer) from an empty buffer with `bs = 16`, exactly
one round fires, on the 17th call. -/
theorem claim_C6_minibatch_trigger {Net : Type}
    (score : Net → List ℚ → ℚ) (exStep : Net → List ℚ → ℚ → ℚ → Net)
    (round : Net → List (List ℚ) → List ℚ → Net) :
    (∀ (st : LambdaState Net) (X : List ℚ) (y : ℚ)
        (st1 : LambdaState Net) (d f : Bool),
      BpLambdaPerceptron.predict_and_update score exStep round st X y = some (st1, d, f) →
      (f = true ↔ (st.example_history_x.length + 1) % (st.bs + 1) = 0)) ∧
    (∀ (st : LambdaState Net) (inputs : List (List ℚ × ℚ))
        (stF : LambdaState Net) (outs : List (Bool × Bool)),
      st.bs = 16 → st.example_history_x = [] → inputs.length = 17 →
      BpLambdaPerceptron.run score exStep round st inputs = some (stF, outs) →
      (∀ p ∈ outs.zip inputs, (if p.1.1 then (1 : ℚ) else 0) ≠ p.2.2) →
      outs.map Prod.snd = List.replicate 16 false ++ [true]) := by
  constructor
  · intro st X y st1 d f h
    have hf := (predict_and_update_some_facts score exStep round st X y st1 d f h).1
    rw [hf]
    simp
  · intro st inputs stF outs hbs hehx hlen hrun hmis
    have hpat := lambdaRun_fired_pattern score exStep round inputs st stF outs hrun hmis
    rw [hpat]
    simp only [hbs, hehx, hlen, List.length_nil]
    decide

/-- The empty-buffer starting state for the 17-call C6 scenario. -/
def lamSt0 : LambdaState Unit :=
  { net := (), example_history_x := [], example_history_y := [], lamb := 0, bs := 16 }

/-- Seventeen identical observations; with the constant-zero net each one is
mispredicted (decision 0, label 1). -/
def inputs0 : List (List ℚ × ℚ) := List.replicate 17 ([0], 1)

/-- The (decision, fired) outputs of the 17-call scenario. -/
def outs0 : List (Bool × Bool) := List.replicate 16 (false, false) ++ [(false, true)]

/-- The final predictor state of the 17-call scenario. -/
def lamStF : LambdaState Unit :=
  { net := (), example_history_x := List.replicate 17 [0],
    example_history_y := List.replicate 17 1, lamb := 0, bs := 16 }

/-- Witness for C6: the concrete 17-call all-mispredicted run fires exactly
one round, on call 17. -/
theorem claim_C6_minibatch_trigger_witness :
    List.map Prod.snd outs0 = List.replicate 16 false ++ [true] :=
  (claim_C6_minibatch_trigger score0 exStep0 round0).2 lamSt0 inputs0 lamStF outs0
    rfl rfl (by decide)
    (by
      norm_num [BpLambdaPerceptron.run, BpLambdaPerceptron.predict_and_update,
        BpLambdaPerceptron.learning_round, BpLambdaPerceptron.lambda_term,
        lamSt0, inputs0, lamStF, outs0, score0, exStep0, round0, List.replicate_succ])
    (by decide)
